import Mathlib

/-!
Verification of the dbi library (a database/sql wrapper) against its
specification.  The Go sources are shallowly embedded: pure helpers become
Lean functions, and the transactional operations become functions from an
explicit description of the backend's behaviour (the outcomes of Begin,
Query, Scan, Exec and Commit) to the observable result of the call: the
returned values, the returned error, and the fate of the transaction.

Go strings are modelled as Lean strings; the inputs exercised by the
claims are ASCII, where Go's byte indexing and Lean's character indexing
coincide.
-/

namespace Dbi

/-- A timestamp as carried by a scanned `time.Time` value (UTC offset in
minutes). -/
structure GoTime where
  year : Nat
  month : Nat
  day : Nat
  hour : Nat
  minute : Nat
  second : Nat
  nanos : Nat
  offsetMinutes : Int
  deriving DecidableEq, Repr

/-- A floating value, modelled as a sign with a decimal expansion to six
places (the granularity printed by Go's fixed-point verb used in
`QueryString`). -/
structure GoFloat where
  neg : Bool
  units : Nat
  micros : Nat
  deriving DecidableEq, Repr

/-- Left-pad the decimal rendering of `n` with zeros to width `w`. -/
def padZeros (w n : Nat) : String :=
  let s := toString n
  String.mk (List.replicate (w - s.length) '0') ++ s

/-- The fractional-seconds part printed by Go's RFC 3339 nanosecond layout:
nine digits with trailing zeros removed, empty when the fraction is zero. -/
def nanoFrac (n : Nat) : String :=
  let digits := (padZeros 9 n).data
  let stripped := (digits.reverse.dropWhile (fun c => c = '0')).reverse
  if stripped.isEmpty then "" else "." ++ String.mk stripped

/-- The zone suffix of the RFC 3339 layout: `Z` at UTC, else `±hh:mm`. -/
def offsetPart (m : Int) : String :=
  if m = 0 then "Z"
  else (if m < 0 then "-" else "+") ++
    padZeros 2 (m.natAbs / 60) ++ ":" ++ padZeros 2 (m.natAbs % 60)

/-- Go's `t.Format(time.RFC3339Nano)`. -/
def rfc3339Nano (t : GoTime) : String :=
  padZeros 4 t.year ++ "-" ++ padZeros 2 t.month ++ "-" ++ padZeros 2 t.day ++
    "T" ++ padZeros 2 t.hour ++ ":" ++ padZeros 2 t.minute ++ ":" ++
    padZeros 2 t.second ++ nanoFrac t.nanos ++ offsetPart t.offsetMinutes

/-- Go's fixed-point float verb on the modelled float domain. -/
def goFmtF (f : GoFloat) : String :=
  (if f.neg then "-" else "") ++ toString f.units ++ "." ++ padZeros 6 f.micros

/-- A polymorphic scalar as held in an `interface\x7b\x7d` cell after a row
scan: the cases distinguished by the `QueryString` switch, plus `vother`
for any other dynamic type, carrying that value's default textual
rendering. -/
inductive Value where
  | vnull
  | vstring (s : String)
  | vint64 (n : Int)
  | vint32 (n : Int)
  | vint16 (n : Int)
  | vuint8 (b : Nat)
  | vfloat32 (f : GoFloat)
  | vfloat64 (f : GoFloat)
  | vbool (b : Bool)
  | vtime (t : GoTime)
  | vother (txt : String)
  deriving DecidableEq, Repr

/-- The per-scalar stringification performed inside `QueryString`:
`nil` yields the empty string, otherwise the type switch picks the verb. -/
def queryStringScalar : Value → String
  | .vnull => ""
  | .vstring s => s
  | .vint64 n => toString n
  | .vint32 n => toString n
  | .vint16 n => toString n
  | .vuint8 b => String.singleton (Char.ofNat b)
  | .vfloat32 f => goFmtF f
  | .vfloat64 f => goFmtF f
  | .vbool b => if b then "true" else "false"
  | .vtime t => rfc3339Nano t
  | .vother txt => txt

/-! ## Placeholder translator (`postgresPlaceholders`) -/

/-- Splitting on the `?` marker, as Go's `regexp.Split(sql, -1)` does for
the pattern matching a single literal question mark. -/
def splitQ : List Char → List (List Char)
  | [] => [[]]
  | c :: rest =>
    if c = '?' then [] :: splitQ rest
    else
      match splitQ rest with
      | [] => [[c]]
      | h :: t => (c :: h) :: t

/-- The rebuild loop of `postgresPlaceholders`: before every part except
the first, emit `$argno` and bump the counter. -/
def rebuildParts : List (List Char) → Nat → List Char
  | [], _ => []
  | p :: rest, n => ('$' :: (toString n).data) ++ p ++ rebuildParts rest (n + 1)

/-- Reassembly of the split parts: the first part verbatim, every later
part preceded by its ordinal marker. -/
def joinParts : List (List Char) → Nat → List Char
  | [], _ => []
  | h :: t, n => h ++ rebuildParts t n

/-- `postgresPlaceholders` on character lists: split on the marker; with
more than one part, reassemble interleaving ordinal markers from 1;
otherwise return the text unchanged. -/
def ppChars (s : List Char) : List Char :=
  let elems := splitQ s
  if 1 < elems.length then joinParts elems 1 else s

/-- `postgresPlaceholders` as in the source, replacing each `?` with the
next `$n`. -/
def postgresPlaceholders (s : String) : String :=
  String.mk (ppChars s.data)

/-- Modelled from the spec's words for the translator contract: the same
text with the i-th marker occurrence (left to right) replaced by the
ordinal marker `$i`, all other content preserved verbatim. -/
def specReplace : List Char → Nat → List Char
  | [], _ => []
  | c :: rest, n =>
    if c = '?' then ('$' :: (toString n).data) ++ specReplace rest (n + 1)
    else c :: specReplace rest n

/-! ## Transactional operations

The backend (database/sql plus the driver) is modelled by records listing
the outcome of each call the operation makes: Begin, per-statement Query,
per-row Scan, the post-iteration cursor error, Prepare, per-row Exec, and
Commit.  The embedding mirrors the Go control flow, including two
consequences of the source's variable scoping that the deferred
begin/commit/rollback closure is exposed to:

* in `MultiQuery`, `Transaction` and `Upsert`'s row loop, the statement
  execution error is bound by a short variable declaration inside an inner
  block, shadowing the function-scoped `err` the deferred closure reads;
  on those error paths the closure therefore sees a nil `err` and commits;
* none of the operations has named result parameters, so the closure's
  assignment `err = tx.Commit()` never reaches the caller.
-/

/-- The fate of the transaction opened by an operation. -/
inductive TxFate where
  | notOpened
  | rolledBack
  | committed (commitErr : Option String)
  deriving DecidableEq, Repr

/-- The observable behaviour of one `tx.Query` call: result columns, the
scanned values of each row, an optional per-row scan fault, and the
cursor's post-iteration error. -/
structure QueryData where
  cols : List String
  rows : List (List Value)
  scanErrs : List (Option String)
  rowsErr : Option String
  deriving DecidableEq, Repr

/-- Go map assignment `m[k] = v` on an association list. -/
def mapSet (m : List (String × Value)) (k : String) (v : Value) :
    List (String × Value) :=
  if m.any (fun p => p.1 == k) then
    m.map (fun p => if p.1 == k then (k, v) else p)
  else m ++ [(k, v)]

/-- The row-decoder step of `MultiQuery`: store each column value in the
map under its column name, in column order. -/
def decodeRow (cols : List String) (vals : List Value) : List (String × Value) :=
  (List.zip cols vals).foldl (fun m p => mapSet m p.1 p.2) []

/-- The `rows.Next()` loop of `MultiQuery` for one statement: a scan fault
aborts the call discarding rows decoded so far. -/
def scanRowsLoop (cols : List String) :
    List (List Value) → List (Option String) → List (List (String × Value)) →
      Except String (List (List (String × Value)))
  | [], _, acc => .ok acc
  | row :: rest, errs, acc =>
    match errs.headD none with
    | some e => .error e
    | none => scanRowsLoop cols rest errs.tail (acc ++ [decodeRow cols row])

/-- Backend behaviour seen by one `MultiQuery` call. -/
structure MQDB where
  beginErr : Option String
  queryRes : List (Except String QueryData)
  commitErr : Option String
  deriving Repr

/-- Observable result of a `MultiQuery` call. -/
structure MQResult where
  ret : Option (List (List (List (String × Value))))
  err : Option String
  fate : TxFate
  deriving DecidableEq, Repr

/-- The statement loop of `MultiQuery`.  On a Query, Scan or cursor error
the function returns a nil result and the error, but the error was bound
by a declaration inside the loop body that shadows the function-scoped
`err`, so the deferred closure sees nil and commits. -/
def mqLoop (db : MQDB) : Nat → List String → List (List (List (String × Value))) →
    MQResult
  | _, [], acc => ⟨some acc, none, .committed db.commitErr⟩
  | i, _s :: rest, acc =>
    match db.queryRes.getD i (.error ("no query result")) with
    | .error e => ⟨none, some e, .committed db.commitErr⟩
    | .ok qd =>
      match scanRowsLoop qd.cols qd.rows qd.scanErrs [] with
      | .error e => ⟨none, some e, .committed db.commitErr⟩
      | .ok rowset =>
        match qd.rowsErr with
        | some e => ⟨none, some e, .committed db.commitErr⟩
        | none => mqLoop db (i + 1) rest (acc ++ [rowset])

/-- `MultiQuery` pads a shorter argument list with empty argument lists. -/
def padArgs (sqls : List String) (args : List (List Value)) : List (List Value) :=
  args ++ List.replicate (sqls.length - args.length) []

/-- `MultiQuery`: begin, pad the arguments, run every statement inside the
transaction, and dispose of the transaction in the deferred closure. -/
def multiQuery (driver : String) (db : MQDB) (sqls : List String)
    (args : List (List Value)) : MQResult :=
  match db.beginErr with
  | some e => ⟨none, some e, .notOpened⟩
  | none =>
    let _args := padArgs sqls args
    let sqlsSent :=
      sqls.map (fun s => if driver = "postgres" then postgresPlaceholders s else s)
    mqLoop db 0 sqlsSent []

/-- Backend behaviour seen by one `Upsert` call. -/
structure UpsertDB where
  beginErr : Option String
  prepareErr : Option String
  execErrs : List (Option String)
  commitErr : Option String
  deriving Repr

/-- Observable result of an `Upsert` or `Transaction` call. -/
structure ExecResult where
  err : Option String
  fate : TxFate
  deriving DecidableEq, Repr

/-- The row loop of `Upsert`: the first failing row aborts with an error
naming the loop index `i` (0-based).  The Exec error is bound inside the
`if` statement, shadowing the function-scoped `err`, so the deferred
closure sees nil and commits. -/
def upsertLoop (db : UpsertDB) : Nat → List (List Value) → ExecResult
  | _, [] => ⟨none, .committed db.commitErr⟩
  | i, _a :: rest =>
    match db.execErrs.getD i none with
    | some e =>
      ⟨some ("upsert on row " ++ toString i ++ " failed: " ++ e),
        .committed db.commitErr⟩
    | none => upsertLoop db (i + 1) rest

/-- `Upsert`: translate placeholders, begin, prepare once (its error is
bound to the function-scoped `err`, so a prepare failure does roll back),
then execute every argument row. -/
def upsert (driver : String) (db : UpsertDB) (sql : String)
    (array : List (List Value)) : ExecResult :=
  let _sqlSent := if driver = "postgres" then postgresPlaceholders sql else sql
  match db.beginErr with
  | some e => ⟨some e, .notOpened⟩
  | none =>
    match db.prepareErr with
    | some e => ⟨some e, .rolledBack⟩
    | none => upsertLoop db 0 array

/-- Backend behaviour seen by one `Transaction` call. -/
structure TransDB where
  beginErr : Option String
  prepareErrs : List (Option String)
  execErrs : List (List (Option String))
  commitErr : Option String
  deriving Repr

/-- The statement-preparation loop of `Transaction`; the prepare error is
declared inside the loop body, shadowing the function-scoped `err`. -/
def transPrepareLoop (db : TransDB) : Nat → List String → Option String
  | _, [] => none
  | i, _s :: rest =>
    match db.prepareErrs.getD i none with
    | some e => some e
    | none => transPrepareLoop db (i + 1) rest

/-- The per-set row loop of `Transaction`: errors are reported with the
1-based set and row numbers. -/
def transRowLoop (db : TransDB) (setno : Nat) : Nat → List (List Value) →
    Option String
  | _, [] => none
  | rowno, _row :: rest =>
    match (db.execErrs.getD setno []).getD rowno none with
    | some e =>
      some ("sql set " ++ toString (setno + 1) ++ ", row " ++
        toString (rowno + 1) ++ ": " ++ e)
    | none => transRowLoop db setno (rowno + 1) rest

/-- The execution loops of `Transaction`.  The Exec error is bound inside
the `if`, shadowing the function-scoped `err`: commit on the error path. -/
def transExecLoop (db : TransDB) : Nat → List (List (List Value)) → ExecResult
  | _, [] => ⟨none, .committed db.commitErr⟩
  | setno, aset :: rest =>
    match transRowLoop db setno 0 aset with
    | some msg => ⟨some msg, .committed db.commitErr⟩
    | none => transExecLoop db (setno + 1) rest

/-- `Transaction`: reject uneven statement/argument lists before opening a
transaction, else begin, prepare all statements, then execute each
statement against its argument rows. -/
def transactionOp (driver : String) (db : TransDB) (sqls : List String)
    (args : List (List (List Value))) : ExecResult :=
  if sqls.length ≠ args.length then
    ⟨some ("uneven set of sql and data"), .notOpened⟩
  else
    match db.beginErr with
    | some e => ⟨some e, .notOpened⟩
    | none =>
      let _sqlsSent :=
        sqls.map (fun s => if driver = "postgres" then postgresPlaceholders s else s)
      match transPrepareLoop db 0 sqls with
      | some e => ⟨some e, .committed db.commitErr⟩
      | none => transExecLoop db 0 args

/-! ## The tag-driven unmarshaler

The caller record type is modelled by its reflection-visible data: for
each struct field its name, its `dbi` tag (when present), its type name,
and whether the field is settable (`CanSet`, `CanAddr` and
`Addr().CanInterface` collapsed into one capability flag — they agree for
struct fields reached through a pointer).  Driver-side value conversion
during `rows.Scan` is abstracted away: the scanned value of each column is
the one listed in the row, and scan faults are listed per row. -/

structure GoField where
  fname : String
  tag : Option String
  typeName : String
  settable : Bool
  deriving DecidableEq, Repr

/-- Default used for out-of-range field indexing. -/
def fdDefault : GoField := ⟨"", none, "", false⟩

/-- The `taggroup` of the source: field name, claimed column, options. -/
structure Taggroup where
  fieldName : String
  column : String
  options : List String
  deriving DecidableEq, Repr

/-- Splitting a character list on a separator, keeping empty parts, as
Go's `strings.Split` does. -/
def splitChar (sep : Char) : List Char → List (List Char)
  | [] => [[]]
  | c :: rest =>
    if c = sep then [] :: splitChar sep rest
    else
      match splitChar sep rest with
      | [] => [[c]]
      | h :: t => (c :: h) :: t

/-- Go's `strings.Split(tag, ",")`. -/
def splitComma (s : String) : List String :=
  (splitChar ',' s.data).map String.mk

/-- The per-field tag parsing of `unmarshal`: the first comma-separated
token is the column name (empty means the field is not bound), the rest
are option flags. -/
def fieldTag (f : GoField) : Option Taggroup :=
  match f.tag with
  | none => none
  | some t =>
    let options := splitComma t
    if 0 < options.length ∧ options.headD "" ≠ "" then
      some ⟨f.fname, options.headD "", options.tail⟩
    else none

/-- The column a field binding claims, if any. -/
def claimedColumn (f : GoField) : Option String :=
  (fieldTag f).map (fun t => t.column)

/-- The tag-collection loop of `unmarshal`: fields in declaration order,
failing on the first column claimed twice. -/
def collectTagsAux : List GoField → List Taggroup → Except String (List Taggroup)
  | [], acc => .ok acc
  | f :: rest, acc =>
    match fieldTag f with
    | none => collectTagsAux rest acc
    | some tg =>
      if acc.any (fun t => t.column == tg.column) then
        .error ("dbi: column " ++ tg.column ++ " used on multiple fields")
      else collectTagsAux rest (acc ++ [tg])

/-- The field bindings (`populate`) of a record type. -/
def collectTags (fields : List GoField) : Except String (List Taggroup) :=
  collectTagsAux fields []

/-- The zero value a freshly allocated record field starts with.  Only the
text case matters to the properties proved here; other kinds are
abstracted. -/
def zeroValue (typeName : String) : Value :=
  if typeName = "string" then .vstring ""
  else if typeName = "int" then .vint64 0
  else .vnull

/-- A freshly allocated record: every field at its zero value. -/
def zeroRecord (fields : List GoField) : List Value :=
  fields.map (fun f => zeroValue f.typeName)

/-- `reflect.Value.String()` on a field: the value itself for a text
field, and a `<T Value>` placeholder for any other kind. -/
def goFieldString (typeName : String) (v : Value) : String :=
  if typeName = "string" then
    match v with
    | .vstring s => s
    | _ => ""
  else "<" ++ typeName ++ " Value>"

/-- `reflect.Value.Set` of a text value into a field: a runtime fault
unless the field is a text field. -/
def setFieldString (typeName : String) (s : String) : Except String Value :=
  if typeName = "string" then .ok (.vstring s)
  else
    .error ("reflect.Set: value of type string is not assignable to type " ++
      typeName)

/-- Where one result column is scanned: straight into a record field, or
into the generic scratch slot (`columns[i]`), which discards it. -/
inductive Dest where
  | field (j : Nat)
  | scratch
  deriving DecidableEq, Repr

/-- The `colLoop` body of `unmarshal` for one result column: a claiming
binding whose field is found settable binds the field (the scratch slot
instead when the `agg` option is set, recording the field in the agg list;
a text field with the `date` option is recorded in the date list); any
other column is discarded into the scratch slot. -/
def bindCol (fields : List GoField) (populate : List Taggroup) (c : String) :
    Dest × List Nat × List Nat :=
  match populate.find? (fun t => t.column == c) with
  | none => (.scratch, [], [])
  | some p =>
    match fields.findIdx? (fun fd => fd.fname == p.fieldName && fd.settable) with
    | none => (.scratch, [], [])
    | some j =>
      ((if 0 < p.options.length ∧ p.options.contains "agg" then Dest.scratch
        else Dest.field j),
        (if 0 < p.options.length ∧ p.options.contains "date" ∧
            (fields.getD j fdDefault).typeName = "string" then [j] else []),
        (if 0 < p.options.length ∧ p.options.contains "agg" then [j] else []))

/-- The whole `colLoop`: destinations per column plus the `dateOptions`
and `aggOptions` index lists, in column order. -/
def buildDests (fields : List GoField) (populate : List Taggroup) :
    List String → List Dest × List Nat × List Nat
  | [] => ([], [], [])
  | c :: rest =>
    ((bindCol fields populate c).1 :: (buildDests fields populate rest).1,
      (bindCol fields populate c).2.1 ++ (buildDests fields populate rest).2.1,
      (bindCol fields populate c).2.2 ++ (buildDests fields populate rest).2.2)

/-- `rows.Scan(columnPointers...)`: each column value lands in its
destination; scratch-bound values are discarded. -/
def applyScanRow : List Dest → List Value → List Value → List Value
  | Dest.field j :: ds, v :: vs, r => applyScanRow ds vs (r.set j v)
  | Dest.scratch :: ds, _ :: vs, r => applyScanRow ds vs r
  | _, _, r => r

/-- The `dateOptions` loop: for every recorded field, if its text value
has more than 10 characters, keep only the first 10. -/
def applyDates (fields : List GoField) : List Nat → List Value → List Value
  | [], r => r
  | j :: rest, r =>
    if (fields.getD j fdDefault).settable then
      if 10 < (goFieldString (fields.getD j fdDefault).typeName
          (r.getD j .vnull)).length then
        applyDates fields rest (r.set j (.vstring (String.mk
          ((goFieldString (fields.getD j fdDefault).typeName
            (r.getD j .vnull)).data.take 10))))
      else applyDates fields rest r
    else applyDates fields rest r

/-- The `aggOptions` loop: textually identical to the date loop in the
source, reading the field's own value (not the scratch slot the column was
captured into); setting the truncated text into a non-text field is a
runtime fault. -/
def applyAggs (fields : List GoField) : List Nat → List Value →
    Except String (List Value)
  | [], r => .ok r
  | j :: rest, r =>
    if (fields.getD j fdDefault).settable then
      if 10 < (goFieldString (fields.getD j fdDefault).typeName
          (r.getD j .vnull)).length then
        match setFieldString (fields.getD j fdDefault).typeName (String.mk
            ((goFieldString (fields.getD j fdDefault).typeName
              (r.getD j .vnull)).data.take 10)) with
        | .error e => .error e
        | .ok v => applyAggs fields rest (r.set j v)
      else applyAggs fields rest r
    else applyAggs fields rest r

/-- One iteration of the row loop: build destinations, scan, run the date
loop, run the agg loop. -/
def processRow (fields : List GoField) (populate : List Taggroup)
    (cols : List String) (row : List Value) : Except String (List Value) :=
  applyAggs fields (buildDests fields populate cols).2.2
    (applyDates fields (buildDests fields populate cols).2.1
      (applyScanRow (buildDests fields populate cols).1 row (zeroRecord fields)))

/-- The record produced for one row on the success path. -/
def processRowD (fields : List GoField) (populate : List Taggroup)
    (cols : List String) (row : List Value) : List Value :=
  match processRow fields populate cols row with
  | .ok r2 => r2
  | .error _ => []

/-- Backend behaviour seen by one `unmarshal` call. -/
structure UnmarshalDB where
  beginErr : Option String
  queryRes : Except String QueryData
  commitErr : Option String
  deriving Repr

/-- Observable result of an `unmarshal` call: the returned error, a
re-raised runtime fault (if any), whether `BeginTx` was reached, the fate
of the transaction, the final contents of the caller's target slice, and
how many rows were read from the cursor. -/
structure UResult where
  err : Option String
  faulted : Option String
  beginTried : Bool
  fate : TxFate
  slice : List (List Value)
  rowsRead : Nat
  deriving DecidableEq, Repr

/-- The row loop of `unmarshal`.  Scan errors and the post-iteration
cursor error are bound by declarations inside inner blocks, shadowing the
function-scoped `err`: the deferred closure commits on those paths.  A
runtime fault in the agg loop is recovered, the transaction rolled back,
and the fault re-raised. -/
def unmarshalRowLoop (fields : List GoField) (populate : List Taggroup)
    (cols : List String) (commitErr : Option String) (rowsErr : Option String) :
    List (List Value) → List (Option String) → List (List Value) → Nat → UResult
  | [], _, slice, seen =>
    match rowsErr with
    | some e =>
      ⟨some ("dbi: rows: " ++ e), none, true, .committed commitErr, slice, seen⟩
    | none => ⟨none, none, true, .committed commitErr, slice, seen⟩
  | row :: rest, scanErrs, slice, seen =>
    match scanErrs.headD none with
    | some e =>
      ⟨some ("dbi: row scan: " ++ e), none, true, .committed commitErr, slice,
        seen + 1⟩
    | none =>
      match processRow fields populate cols row with
      | .error e => ⟨none, some e, true, .rolledBack, slice, seen + 1⟩
      | .ok r2 =>
        unmarshalRowLoop fields populate cols commitErr rowsErr rest
          scanErrs.tail (slice ++ [r2]) (seen + 1)

/-- `unmarshal`: shape checks, tag collection (before any transaction),
placeholder translation, BeginTx, Query (its error is bound to the
function-scoped `err`, so this path does roll back), the column-coverage
check (before any row is read; its early return leaves the function-scoped
`err` nil, so the deferred closure commits), then the row loop. -/
def unmarshal (driver : String) (shapeOk sliceSettable : Bool)
    (fields : List GoField) (initSlice : List (List Value))
    (db : UnmarshalDB) (sql : String) : UResult :=
  if ¬shapeOk then
    ⟨some ("dbi: argument must be a ponter to a slice with pointers to a struct"),
      none, false, .notOpened, initSlice, 0⟩
  else if ¬sliceSettable then
    ⟨some ("dbi: unable to set/change slice"), none, false, .notOpened,
      initSlice, 0⟩
  else
    match collectTags fields with
    | .error e => ⟨some e, none, false, .notOpened, initSlice, 0⟩
    | .ok populate =>
      let _sqlSent := if driver = "postgres" then postgresPlaceholders sql else sql
      match db.beginErr with
      | some e =>
        ⟨some ("dbi: begin: " ++ e), none, true, .notOpened, initSlice, 0⟩
      | none =>
        match db.queryRes with
        | .error e =>
          ⟨some ("dbi: query: " ++ e), none, true, .rolledBack, initSlice, 0⟩
        | .ok qd =>
          match populate.find? (fun t => ! qd.cols.contains t.column) with
          | some t =>
            ⟨some ("dbi: query didn\x27t return any columns with name " ++
              t.column), none, true, .committed db.commitErr, initSlice, 0⟩
          | none =>
            unmarshalRowLoop fields populate qd.cols db.commitErr qd.rowsErr
              qd.rows qd.scanErrs initSlice 0

theorem splitQ_cons_marker (rest : List Char) :
    splitQ ('?' :: rest) = [] :: splitQ rest := by
  simp [splitQ]

theorem splitQ_cons_other (c : Char) (rest : List Char) (hc : c ≠ '?')
    (h : List Char) (t : List (List Char)) (hr : splitQ rest = h :: t) :
    splitQ (c :: rest) = (c :: h) :: t := by
  simp [splitQ, if_neg hc, hr]

theorem splitQ_ne_nil (s : List Char) : splitQ s ≠ [] := by
  cases s with
  | nil => simp [splitQ]
  | cons c rest =>
    by_cases hc : c = '?'
    · subst hc
      rw [splitQ_cons_marker]
      simp
    · cases hr : splitQ rest with
      | nil =>
        unfold splitQ
        rw [if_neg hc, hr]
        simp
      | cons h t =>
        rw [splitQ_cons_other c rest hc h t hr]
        simp

theorem splitQ_spec (s : List Char) (n : Nat) :
    joinParts (splitQ s) n = specReplace s n := by
  induction s generalizing n with
  | nil => rfl
  | cons c rest ih =>
    cases hr : splitQ rest with
    | nil => exact absurd hr (splitQ_ne_nil rest)
    | cons h t =>
      by_cases hc : c = '?'
      · subst hc
        rw [splitQ_cons_marker, hr]
        show ([] : List Char) ++ rebuildParts (h :: t) n = specReplace ('?' :: rest) n
        have ihs := ih (n := n + 1)
        rw [hr] at ihs
        dsimp only [rebuildParts, specReplace, joinParts] at ihs ⊢
        rw [if_pos rfl, List.nil_append, List.append_assoc, ihs]
      · rw [splitQ_cons_other c rest hc h t hr]
        have ihn := ih (n := n)
        rw [hr] at ihn
        dsimp only [specReplace, joinParts] at ihn ⊢
        rw [if_neg hc, List.cons_append, ihn]

theorem splitQ_singleton : ∀ (s : List Char) (h : List Char),
    splitQ s = [h] → s = h := by
  intro s
  induction s with
  | nil =>
    intro h hh
    simp only [splitQ, List.cons.injEq, and_true] at hh
    exact hh
  | cons c rest ih =>
    intro h hh
    by_cases hc : c = '?'
    · subst hc
      rw [splitQ_cons_marker] at hh
      injection hh with h1 h2
      exact absurd h2 (splitQ_ne_nil rest)
    · cases hr : splitQ rest with
      | nil => exact absurd hr (splitQ_ne_nil rest)
      | cons a b =>
        rw [splitQ_cons_other c rest hc a b hr] at hh
        injection hh with h1 h2
        have hresta : rest = a := ih a (by rw [hr, h2])
        rw [hresta]
        exact h1

theorem ppChars_eq_specReplace (s : List Char) : ppChars s = specReplace s 1 := by
  have hmain := splitQ_spec s 1
  unfold ppChars
  cases hq : splitQ s with
  | nil => exact absurd hq (splitQ_ne_nil s)
  | cons h t =>
    rw [hq] at hmain
    cases t with
    | nil =>
      dsimp only [List.length]
      rw [if_neg (by omega)]
      dsimp only [joinParts, rebuildParts] at hmain
      rw [List.append_nil] at hmain
      have hs := splitQ_singleton s h hq
      subst hs
      exact hmain
    | cons h2 t2 =>
      dsimp only [List.length]
      rw [if_pos (by omega)]
      exact hmain

theorem specReplace_no_marker :
    ∀ (s : List Char) (n : Nat), '?' ∉ s → specReplace s n = s := by
  intro s
  induction s with
  | nil => intro n _; rfl
  | cons c rest ih =>
    intro n hmem
    have hc : c ≠ '?' := fun hc => hmem (hc ▸ List.mem_cons_self c rest)
    have hrest : '?' ∉ rest := fun hr => hmem (List.mem_cons_of_mem c hr)
    dsimp only [specReplace]
    rw [if_neg (fun hcc => hc hcc), ih n hrest]

/-- C5: for every SQL text with k occurrences of the `?` marker, the
translator returns the same text with the i-th occurrence replaced by
`$i` (i = 1..k) and all non-marker content preserved verbatim (this is
exactly what `specReplace`, written from the spec's words, produces);
in particular a text with zero markers is returned unchanged. -/
theorem postgresPlaceholders_correct :
    (∀ s : String, postgresPlaceholders s = String.mk (specReplace s.data 1)) ∧
    (∀ s : String, '?' ∉ s.data → postgresPlaceholders s = s) := by
  constructor
  · intro s
    unfold postgresPlaceholders
    rw [ppChars_eq_specReplace]
  · intro s h
    unfold postgresPlaceholders
    rw [ppChars_eq_specReplace, specReplace_no_marker s.data 1 h]

/-- Witness for C5 at concrete inputs. -/
theorem postgresPlaceholders_correct_witness :
    ('?' ∉ ("select 1").data) ∧ postgresPlaceholders ("select 1") = ("select 1") :=
  ⟨by decide, postgresPlaceholders_correct.2 ("select 1") (by decide)⟩

/-- C6: the `QueryString` per-scalar stringification is a total function
on the scalar domain (hence deterministic), rendering a null value as
empty text, a text value as itself, each integer width in decimal, each
floating width in fixed-point, a boolean as `true`/`false`, a single-byte
value as the character it encodes, a timestamp in RFC 3339 with nanosecond
precision, and any other type by its default textual rendering; in
particular 2024-01-02T03:04:05.678Z renders as
`2024-01-02T03:04:05.678Z`. -/
theorem queryStringScalar_rendering :
    queryStringScalar .vnull = "" ∧
    (∀ s, queryStringScalar (.vstring s) = s) ∧
    (∀ n, queryStringScalar (.vint64 n) = toString n) ∧
    (∀ n, queryStringScalar (.vint32 n) = toString n) ∧
    (∀ n, queryStringScalar (.vint16 n) = toString n) ∧
    (∀ b, queryStringScalar (.vuint8 b) = String.singleton (Char.ofNat b)) ∧
    (∀ f, queryStringScalar (.vfloat32 f) = goFmtF f) ∧
    (∀ f, queryStringScalar (.vfloat64 f) = goFmtF f) ∧
    queryStringScalar (.vbool true) = "true" ∧
    queryStringScalar (.vbool false) = "false" ∧
    (∀ t, queryStringScalar (.vtime t) = rfc3339Nano t) ∧
    (∀ s, queryStringScalar (.vother s) = s) ∧
    queryStringScalar (.vtime ⟨2024, 1, 2, 3, 4, 5, 678000000, 0⟩) =
      "2024-01-02T03:04:05.678Z" :=
  ⟨rfl, fun _ => rfl, fun _ => rfl, fun _ => rfl, fun _ => rfl, fun _ => rfl,
    fun _ => rfl, fun _ => rfl, rfl, rfl, fun _ => rfl, fun _ => rfl, by decide⟩

/-- C1: evaluation at a batch whose second statement's execution faults.
`MultiQuery` does return a nil result and the error, but the transaction
is committed, not rolled back: the execution error was bound by a
declaration that shadows the function-scoped `err`, so the deferred
closure sees nil and calls `tx.Commit()`. -/
theorem multiQuery_failure_commits :
    multiQuery ("postgres")
      ⟨none, [.ok ⟨[], [], [], none⟩, .error ("boom")], none⟩
      [("insert into t values (?)"), ("select x from t")]
      [[.vint64 1], []] =
    ⟨none, some ("boom"), .committed none⟩ := by
  rfl

/-- C2: evaluation at a one-row `Upsert` whose single (1-based first) row
fails.  The error names the 0-based loop index (`row 0`, not `row 1`), and
the transaction is committed, not rolled back: the Exec error is bound
inside the `if`, shadowing the function-scoped `err` that the deferred
closure checks. -/
theorem upsert_failure_zero_based_and_commits :
    upsert ("postgres") ⟨none, none, [some ("duplicate key")], none⟩
      ("insert into t values (?)") [[.vint64 1]] =
    ⟨some ("upsert on row 0 failed: duplicate key"), .committed none⟩ := by
  rfl

/-- C3: evaluation at an `agg`-flagged text field whose column carries a
15-character value.  The column is captured into the generic scratch slot,
but the post-scan agg loop reads the field itself — which was never
populated from the scratch slot — so the appended record's field is the
empty string rather than the truncated column value. -/
theorem unmarshal_agg_field_left_zero :
    unmarshal ("postgres") true true
      [⟨"Total", some ("total,agg"), ("string"), true⟩] []
      ⟨none, .ok ⟨[("total")], [[.vstring ("123456789012345")]], [], none⟩, none⟩
      ("select total from t") =
    ⟨none, none, true, .committed none, [[Value.vstring ""]], 1⟩ := by
  rfl

/-- C4: evaluation of all four transactional operations on a successful
unit of work whose Commit fails.  The deferred closure assigns the commit
error to a local variable, but none of the operations has named result
parameters, so the caller receives a nil error in every case: the commit
error is dropped, not surfaced. -/
theorem commit_error_not_surfaced :
    (multiQuery ("postgres")
        ⟨none, [.ok ⟨[("a")], [[.vint64 7]], [], none⟩], some ("commit failed")⟩
        [("select a from t")] [] =
      ⟨some [[[(("a"), Value.vint64 7)]]], none,
        .committed (some ("commit failed"))⟩) ∧
    (upsert ("postgres") ⟨none, none, [], some ("commit failed")⟩
        ("insert into t values (?)") [[.vint64 1]] =
      ⟨none, .committed (some ("commit failed"))⟩) ∧
    (transactionOp ("postgres") ⟨none, [], [], some ("commit failed")⟩
        [("insert into t values (?)")] [[[.vint64 1]]] =
      ⟨none, .committed (some ("commit failed"))⟩) ∧
    (unmarshal ("postgres") true true
        [⟨"Name", some ("name"), ("string"), true⟩] []
        ⟨none, .ok ⟨[("name")], [[.vstring ("bob")]], [], none⟩,
          some ("commit failed")⟩
        ("select name from t") =
      ⟨none, none, true, .committed (some ("commit failed")),
        [[Value.vstring ("bob")]], 1⟩) := by
  exact ⟨rfl, rfl, rfl, rfl⟩

theorem collectTagsAux_cons_none (f : GoField) (rest : List GoField)
    (acc : List Taggroup) (hft : fieldTag f = none) :
    collectTagsAux (f :: rest) acc = collectTagsAux rest acc := by
  conv_lhs => rw [collectTagsAux]
  rw [hft]

theorem collectTagsAux_cons_some (f : GoField) (rest : List GoField)
    (acc : List Taggroup) (tg : Taggroup) (hft : fieldTag f = some tg) :
    collectTagsAux (f :: rest) acc =
      if acc.any (fun t => t.column == tg.column) then
        .error ("dbi: column " ++ tg.column ++ " used on multiple fields")
      else collectTagsAux rest (acc ++ [tg]) := by
  conv_lhs => rw [collectTagsAux]
  rw [hft]

theorem collectTagsAux_error_form :
    ∀ (fields : List GoField) (acc : List Taggroup) (e : String),
      collectTagsAux fields acc = .error e →
      ∃ c, e = "dbi: column " ++ c ++ " used on multiple fields" := by
  intro fields
  induction fields with
  | nil =>
    intro acc e h
    simp [collectTagsAux] at h
  | cons f rest ih =>
    intro acc e h
    cases hft : fieldTag f with
    | none =>
      rw [collectTagsAux_cons_none f rest acc hft] at h
      exact ih acc e h
    | some tg =>
      rw [collectTagsAux_cons_some f rest acc tg hft] at h
      by_cases hany : acc.any (fun t => t.column == tg.column) = true
      · rw [if_pos hany] at h
        injection h with h1
        exact ⟨tg.column, h1.symm⟩
      · rw [if_neg hany] at h
        exact ih (acc ++ [tg]) e h

theorem collectTagsAux_ok_nodup :
    ∀ (fields : List GoField) (acc : List Taggroup) (res : List Taggroup),
      (acc.map Taggroup.column).Nodup →
      collectTagsAux fields acc = .ok res →
      ((acc.map Taggroup.column) ++ fields.filterMap claimedColumn).Nodup := by
  intro fields
  induction fields with
  | nil =>
    intro acc res hacc _
    simpa using hacc
  | cons f rest ih =>
    intro acc res hacc h
    cases hft : fieldTag f with
    | none =>
      rw [collectTagsAux_cons_none f rest acc hft] at h
      have hcc : claimedColumn f = none := by
        unfold claimedColumn
        rw [hft]
        rfl
      rw [List.filterMap_cons, hcc]
      exact ih acc res hacc h
    | some tg =>
      rw [collectTagsAux_cons_some f rest acc tg hft] at h
      by_cases hany : acc.any (fun t => t.column == tg.column) = true
      · rw [if_pos hany] at h
        exact absurd h (by simp)
      · rw [if_neg hany] at h
        have hnotmem : tg.column ∉ acc.map Taggroup.column := by
          intro hmem
          apply hany
          rw [List.any_eq_true]
          obtain ⟨t, ht, htc⟩ := List.mem_map.mp hmem
          exact ⟨t, ht, by simp [htc]⟩
        have hacc2 : ((acc ++ [tg]).map Taggroup.column).Nodup := by
          rw [List.map_append]
          simp only [List.map_cons, List.map_nil]
          rw [List.nodup_append]
          refine ⟨hacc, List.nodup_singleton _, ?_⟩
          intro a ha hb
          simp only [List.mem_singleton] at hb
          exact hnotmem (hb ▸ ha)
        have hres := ih (acc ++ [tg]) res hacc2 h
        have hcc : claimedColumn f = some tg.column := by
          unfold claimedColumn
          rw [hft]
          rfl
        rw [List.filterMap_cons, hcc]
        rw [List.map_append] at hres
        simpa [List.append_assoc] using hres

theorem collectTags_dup_error (fields : List GoField)
    (hdup : ¬ (fields.filterMap claimedColumn).Nodup) :
    ∃ c, collectTags fields =
      .error ("dbi: column " ++ c ++ " used on multiple fields") := by
  cases h : collectTags fields with
  | ok res =>
    exfalso
    apply hdup
    have := collectTagsAux_ok_nodup fields [] res (by simp) h
    simpa using this
  | error e =>
    obtain ⟨c, hc⟩ := collectTagsAux_error_form fields [] e h
    exact ⟨c, by rw [hc]⟩

/-- C7: an `unmarshal` call on a record type with two field bindings
claiming the same column name fails with a duplicate-column error before
any transaction is opened and before the query executes, with no side
effects (the target slice is untouched and no row is read). -/
theorem unmarshal_duplicate_column
    (driver sql : String) (fields : List GoField)
    (initSlice : List (List Value)) (db : UnmarshalDB)
    (hdup : ¬ (fields.filterMap claimedColumn).Nodup) :
    (∃ c, (unmarshal driver true true fields initSlice db sql).err =
      some ("dbi: column " ++ c ++ " used on multiple fields")) ∧
    (unmarshal driver true true fields initSlice db sql).beginTried = false ∧
    (unmarshal driver true true fields initSlice db sql).fate = .notOpened ∧
    (unmarshal driver true true fields initSlice db sql).slice = initSlice ∧
    (unmarshal driver true true fields initSlice db sql).rowsRead = 0 := by
  obtain ⟨c, hc⟩ := collectTags_dup_error fields hdup
  have hu : unmarshal driver true true fields initSlice db sql =
      ⟨some ("dbi: column " ++ c ++ " used on multiple fields"), none, false,
        .notOpened, initSlice, 0⟩ := by
    unfold unmarshal
    rw [hc]
    simp
  rw [hu]
  exact ⟨⟨c, rfl⟩, rfl, rfl, rfl, rfl⟩

/-- Witness for C7: two bindings both claim column `x`. -/
theorem unmarshal_duplicate_column_witness :
    (¬ (([⟨"A", some ("x"), ("string"), true⟩,
          ⟨"B", some ("x"), ("string"), true⟩] : List GoField).filterMap
        claimedColumn).Nodup) ∧
    (∃ c, (unmarshal ("postgres") true true
        [⟨"A", some ("x"), ("string"), true⟩,
         ⟨"B", some ("x"), ("string"), true⟩] []
        ⟨none, .error ("unused"), none⟩ ("select x from t")).err =
      some ("dbi: column " ++ c ++ " used on multiple fields")) :=
  ⟨by decide,
    (unmarshal_duplicate_column ("postgres") ("select x from t")
      [⟨"A", some ("x"), ("string"), true⟩, ⟨"B", some ("x"), ("string"), true⟩]
      [] ⟨none, .error ("unused"), none⟩ (by decide)).1⟩

/-- C8: when some declared column binding names a column absent from the
query's result columns, `unmarshal` returns an error before any row is
read, and the caller's target slice is left unmodified. -/
theorem unmarshal_missing_column
    (driver sql : String) (fields : List GoField) (populate : List Taggroup)
    (initSlice : List (List Value)) (qd : QueryData) (ce : Option String)
    (hok : collectTags fields = .ok populate)
    (hmiss : ∃ t ∈ populate, qd.cols.contains t.column = false) :
    (∃ c, (unmarshal driver true true fields initSlice ⟨none, .ok qd, ce⟩
        sql).err =
      some ("dbi: query didn\x27t return any columns with name " ++ c)) ∧
    (unmarshal driver true true fields initSlice ⟨none, .ok qd, ce⟩
      sql).rowsRead = 0 ∧
    (unmarshal driver true true fields initSlice ⟨none, .ok qd, ce⟩
      sql).slice = initSlice := by
  have hfind : ∃ t0, populate.find? (fun t => ! qd.cols.contains t.column) =
      some t0 := by
    rw [← Option.isSome_iff_exists]
    rw [List.find?_isSome]
    obtain ⟨t, ht, htc⟩ := hmiss
    exact ⟨t, ht, by rw [htc]; rfl⟩
  obtain ⟨t0, ht0⟩ := hfind
  have hu : unmarshal driver true true fields initSlice ⟨none, .ok qd, ce⟩ sql =
      ⟨some ("dbi: query didn\x27t return any columns with name " ++ t0.column),
        none, true, .committed ce, initSlice, 0⟩ := by
    unfold unmarshal
    rw [hok]
    simp only [ht0]
    simp
  rw [hu]
  exact ⟨⟨t0.column, rfl⟩, rfl, rfl⟩

/-- Witness for C8: the binding claims column `a` but the query returns
only column `b`; the row present in the result is never read. -/
theorem unmarshal_missing_column_witness :
    (∃ t ∈ ([⟨"A", ("a"), []⟩] : List Taggroup),
      ([("b")] : List String).contains t.column = false) ∧
    ((unmarshal ("postgres") true true [⟨"A", some ("a"), ("string"), true⟩] []
        ⟨none, .ok ⟨[("b")], [[.vint64 1]], [], none⟩, none⟩
        ("select b from t")).rowsRead = 0 ∧
      (unmarshal ("postgres") true true [⟨"A", some ("a"), ("string"), true⟩] []
        ⟨none, .ok ⟨[("b")], [[.vint64 1]], [], none⟩, none⟩
        ("select b from t")).slice = []) :=
  ⟨by decide,
    (unmarshal_missing_column ("postgres") ("select b from t")
        [⟨"A", some ("a"), ("string"), true⟩] [⟨"A", ("a"), []⟩] []
        ⟨[("b")], [[.vint64 1]], [], none⟩ none (by rfl)
        (by decide)).2⟩

theorem findIdx?_found {α : Type} (l : List α) (p : α → Bool) (j : Nat)
    (h : l.findIdx? p = some j) : ∃ x, l[j]? = some x ∧ p x = true := by
  rw [List.findIdx?_eq_some_iff_getElem] at h
  obtain ⟨hlt, hp, _⟩ := h
  exact ⟨l[j], by rw [List.getElem?_eq_getElem hlt], hp⟩

theorem findIdx?_settable (fields : List GoField) (q : String) (j : Nat)
    (h : fields.findIdx? (fun fd => fd.fname == q && fd.settable) = some j) :
    (fields.getD j fdDefault).settable = true := by
  obtain ⟨fd, hfd, hp⟩ := findIdx?_found fields _ j h
  have hgd : fields.getD j fdDefault = fd := by
    rw [List.getD_eq_getElem?_getD, hfd]
    rfl
  rw [hgd]
  simp only [Bool.and_eq_true] at hp
  exact hp.2

theorem bindCol_dates_mem (fields : List GoField) (populate : List Taggroup)
    (c : String) (j : Nat) (hj : j ∈ (bindCol fields populate c).2.1) :
    (fields.getD j fdDefault).settable = true ∧
    (fields.getD j fdDefault).typeName = "string" := by
  cases hfind : populate.find? (fun t => t.column == c) with
  | none =>
    simp only [bindCol, hfind] at hj
    simp at hj
  | some p =>
    cases hidx : fields.findIdx?
        (fun fd => fd.fname == p.fieldName && fd.settable) with
    | none =>
      simp only [bindCol, hfind, hidx] at hj
      simp at hj
    | some j0 =>
      simp only [bindCol, hfind, hidx] at hj
      split at hj
      · rename_i hdate
        simp only [List.mem_singleton] at hj
        subst hj
        exact ⟨findIdx?_settable fields p.fieldName j hidx, hdate.2.2⟩
      · simp at hj

theorem bindCol_aggs_mem (fields : List GoField) (populate : List Taggroup)
    (c : String) (j : Nat) (hj : j ∈ (bindCol fields populate c).2.2) :
    (fields.getD j fdDefault).settable = true := by
  cases hfind : populate.find? (fun t => t.column == c) with
  | none =>
    simp only [bindCol, hfind] at hj
    simp at hj
  | some p =>
    cases hidx : fields.findIdx?
        (fun fd => fd.fname == p.fieldName && fd.settable) with
    | none =>
      simp only [bindCol, hfind, hidx] at hj
      simp at hj
    | some j0 =>
      simp only [bindCol, hfind, hidx] at hj
      split at hj
      · simp only [List.mem_singleton] at hj
        subst hj
        exact findIdx?_settable fields p.fieldName j hidx
      · simp at hj

theorem bindCol_field_settable (fields : List GoField) (populate : List Taggroup)
    (c : String) (j : Nat) (hj : (bindCol fields populate c).1 = Dest.field j) :
    (fields.getD j fdDefault).settable = true := by
  cases hfind : populate.find? (fun t => t.column == c) with
  | none =>
    simp only [bindCol, hfind] at hj
    simp at hj
  | some p =>
    cases hidx : fields.findIdx?
        (fun fd => fd.fname == p.fieldName && fd.settable) with
    | none =>
      simp only [bindCol, hfind, hidx] at hj
      simp at hj
    | some j0 =>
      simp only [bindCol, hfind, hidx] at hj
      split at hj
      · simp at hj
      · injection hj with hj0
        subst hj0
        exact findIdx?_settable fields p.fieldName j0 hidx

theorem buildDests_dates_mem (fields : List GoField) (populate : List Taggroup) :
    ∀ (cols : List String) (j : Nat),
      j ∈ (buildDests fields populate cols).2.1 →
      (fields.getD j fdDefault).settable = true ∧
      (fields.getD j fdDefault).typeName = "string" := by
  intro cols
  induction cols with
  | nil => intro j hj; simp [buildDests] at hj
  | cons c rest ih =>
    intro j hj
    simp only [buildDests] at hj
    rcases List.mem_append.mp hj with hl | hr
    · exact bindCol_dates_mem fields populate c j hl
    · exact ih j hr

theorem buildDests_aggs_mem (fields : List GoField) (populate : List Taggroup) :
    ∀ (cols : List String) (j : Nat),
      j ∈ (buildDests fields populate cols).2.2 →
      (fields.getD j fdDefault).settable = true := by
  intro cols
  induction cols with
  | nil => intro j hj; simp [buildDests] at hj
  | cons c rest ih =>
    intro j hj
    simp only [buildDests] at hj
    rcases List.mem_append.mp hj with hl | hr
    · exact bindCol_aggs_mem fields populate c j hl
    · exact ih j hr

theorem buildDests_field_settable (fields : List GoField)
    (populate : List Taggroup) :
    ∀ (cols : List String) (j : Nat),
      Dest.field j ∈ (buildDests fields populate cols).1 →
      (fields.getD j fdDefault).settable = true := by
  intro cols
  induction cols with
  | nil => intro j hj; simp [buildDests] at hj
  | cons c rest ih =>
    intro j hj
    simp only [buildDests, List.mem_cons] at hj
    rcases hj with hl | hr
    · exact bindCol_field_settable fields populate c j hl.symm
    · exact ih j hr

theorem getD_vstring_lt (r : List Value) (j : Nat) (s : String)
    (h : r.getD j .vnull = .vstring s) : j < r.length := by
  by_contra hle
  push_neg at hle
  rw [List.getD_eq_getElem?_getD, List.getElem?_eq_none hle] at h
  simp at h

theorem applyDates_preserve (fields : List GoField) (j : Nat) :
    ∀ (dates : List Nat) (r : List Value), j ∉ dates →
      (applyDates fields dates r).getD j .vnull = r.getD j .vnull := by
  intro dates
  induction dates with
  | nil => intro r _; rfl
  | cons k rest ih =>
    intro r hnot
    have hkj : k ≠ j := fun h => hnot (h ▸ List.mem_cons_self k rest)
    have hjrest : j ∉ rest := fun h => hnot (List.mem_cons_of_mem k h)
    simp only [applyDates]
    split
    · split
      · rw [ih _ hjrest]
        simp only [List.getD_eq_getElem?_getD, List.getElem?_set_ne hkj]
      · exact ih r hjrest
    · exact ih r hjrest

theorem applyAggs_preserve (fields : List GoField) (j : Nat) :
    ∀ (aggs : List Nat) (r r2 : List Value), j ∉ aggs →
      applyAggs fields aggs r = .ok r2 →
      r2.getD j .vnull = r.getD j .vnull := by
  intro aggs
  induction aggs with
  | nil =>
    intro r r2 _ h
    injection h with h
    rw [← h]
  | cons k rest ih =>
    intro r r2 hnot h
    have hkj : k ≠ j := fun hh => hnot (hh ▸ List.mem_cons_self k rest)
    have hjrest : j ∉ rest := fun hh => hnot (List.mem_cons_of_mem k hh)
    simp only [applyAggs] at h
    split at h
    · split at h
      · split at h
        · exact absurd h (by simp)
        · rw [ih _ _ hjrest h]
          simp only [List.getD_eq_getElem?_getD, List.getElem?_set_ne hkj]
      · exact ih r r2 hjrest h
    · exact ih r r2 hjrest h

theorem applyAggs_ok_of_string (fields : List GoField) :
    ∀ (aggs : List Nat) (r : List Value),
      (∀ k ∈ aggs, (fields.getD k fdDefault).typeName = "string") →
      ∃ r2, applyAggs fields aggs r = .ok r2 := by
  intro aggs
  induction aggs with
  | nil => intro r _; exact ⟨r, rfl⟩
  | cons k rest ih =>
    intro r hstr
    have hk : (fields.getD k fdDefault).typeName = "string" :=
      hstr k (List.mem_cons_self k rest)
    have hrest : ∀ k2 ∈ rest, (fields.getD k2 fdDefault).typeName = "string" :=
      fun k2 hk2 => hstr k2 (List.mem_cons_of_mem k hk2)
    simp only [applyAggs]
    split
    · split
      · rw [hk]
        simp only [setFieldString, if_pos rfl]
        exact ih _ hrest
      · exact ih r hrest
    · exact ih r hrest

theorem applyDates_truncates (fields : List GoField) (j : Nat)
    (hset : (fields.getD j fdDefault).settable = true)
    (hstr : (fields.getD j fdDefault).typeName = "string") :
    ∀ (dates : List Nat) (r : List Value) (s : String), j ∈ dates →
      r.getD j .vnull = .vstring s →
      (applyDates fields dates r).getD j .vnull =
        .vstring (if 10 < s.length then String.mk (s.data.take 10) else s) := by
  intro dates
  induction dates with
  | nil =>
    intro r s hmem _
    exact absurd hmem (List.not_mem_nil j)
  | cons k rest ih =>
    intro r s hmem hval
    by_cases hkj : k = j
    · subst hkj
      have hg : goFieldString (fields.getD k fdDefault).typeName
          (r.getD k .vnull) = s := by
        rw [hstr, hval]
        rfl
      simp only [applyDates, hset, hg, if_true]
      by_cases h10 : 10 < s.length
      · rw [if_pos h10]
        have hlt : k < r.length := getD_vstring_lt r k s hval
        have hval2 : (r.set k (.vstring (String.mk (s.data.take 10)))).getD k
            .vnull = .vstring (String.mk (s.data.take 10)) := by
          rw [List.getD_eq_getElem?_getD, List.getElem?_set_self hlt]
          rfl
        have hlen10 : ¬ 10 < (String.mk (s.data.take 10)).length := by
          show ¬ 10 < (s.data.take 10).length
          rw [List.length_take]
          omega
        by_cases hrest : k ∈ rest
        · rw [ih _ _ hrest hval2, if_neg hlen10, if_pos h10]
        · rw [applyDates_preserve fields k rest _ hrest, hval2, if_pos h10]
      · rw [if_neg h10]
        by_cases hrest : k ∈ rest
        · exact ih r s hrest hval
        · rw [applyDates_preserve fields k rest r hrest, hval, if_neg h10]
    · have hjrest : j ∈ rest := by
        rcases List.mem_cons.mp hmem with hh | hh
        · exact absurd hh.symm hkj
        · exact hh
      simp only [applyDates]
      split
      · split
        · have hpres : (r.set k (.vstring (String.mk ((goFieldString
              (fields.getD k fdDefault).typeName (r.getD k .vnull)).data.take
              10)))).getD j .vnull = .vstring s := by
            rw [List.getD_eq_getElem?_getD, List.getElem?_set_ne hkj,
              ← List.getD_eq_getElem?_getD, hval]
          exact ih _ s hjrest hpres
        · exact ih r s hjrest hval
      · exact ih r s hjrest hval

/-- C9: in the row loop of `unmarshal`, after a row's values are read,
every field recorded in the `dateOptions` list (a `date`-flagged binding
whose field type is text) whose current text value is longer than 10
characters is set to exactly its first 10 characters by the truncation
loop, and such a field whose value is 10 characters or fewer is left
unchanged. -/
theorem unmarshal_date_truncation
    (fields : List GoField) (populate : List Taggroup) (cols : List String)
    (r : List Value) (j : Nat) (s : String)
    (hj : j ∈ (buildDests fields populate cols).2.1)
    (hval : r.getD j .vnull = .vstring s) :
    (applyDates fields (buildDests fields populate cols).2.1 r).getD j .vnull =
      .vstring (if 10 < s.length then String.mk (s.data.take 10) else s) := by
  obtain ⟨hset, hstr⟩ := buildDests_dates_mem fields populate cols j hj
  exact applyDates_truncates fields j hset hstr _ r s hj hval

/-- Witness for C9: a 20-character timestamp-formatted value is truncated
to its first 10 characters; an 8-character value is left unchanged. -/
theorem unmarshal_date_truncation_witness :
    (0 ∈ (buildDests [⟨"Day", some ("day,date"), ("string"), true⟩]
      [⟨"Day", ("day"), [("date")]⟩] [("day")]).2.1) ∧
    (applyDates [⟨"Day", some ("day,date"), ("string"), true⟩]
        (buildDests [⟨"Day", some ("day,date"), ("string"), true⟩]
          [⟨"Day", ("day"), [("date")]⟩] [("day")]).2.1
        [Value.vstring ("2024-01-02T03:04:05Z")]).getD 0 .vnull =
      .vstring ("2024-01-02") ∧
    (applyDates [⟨"Day", some ("day,date"), ("string"), true⟩]
        (buildDests [⟨"Day", some ("day,date"), ("string"), true⟩]
          [⟨"Day", ("day"), [("date")]⟩] [("day")]).2.1
        [Value.vstring ("20240102")]).getD 0 .vnull =
      .vstring ("20240102") :=
  ⟨by decide,
    (unmarshal_date_truncation [⟨"Day", some ("day,date"), ("string"), true⟩]
        [⟨"Day", ("day"), [("date")]⟩] [("day")]
        [Value.vstring ("2024-01-02T03:04:05Z")] 0 ("2024-01-02T03:04:05Z")
        (by decide) (by decide)).trans (by decide),
    (unmarshal_date_truncation [⟨"Day", some ("day,date"), ("string"), true⟩]
        [⟨"Day", ("day"), [("date")]⟩] [("day")]
        [Value.vstring ("20240102")] 0 ("20240102")
        (by decide) (by decide)).trans (by decide)⟩

theorem applyScanRow_preserve (j : Nat) :
    ∀ (dests : List Dest) (vals : List Value) (r : List Value),
      (∀ d ∈ dests, d ≠ Dest.field j) →
      (applyScanRow dests vals r).getD j .vnull = r.getD j .vnull := by
  intro dests
  induction dests with
  | nil => intro vals r _; rfl
  | cons d ds ih =>
    intro vals r hnot
    cases vals with
    | nil => cases d <;> rfl
    | cons v vs =>
      have hrest : ∀ x ∈ ds, x ≠ Dest.field j :=
        fun x hx => hnot x (List.mem_cons_of_mem _ hx)
      cases d with
      | field k =>
        have hkj : k ≠ j := by
          intro hh
          exact (hnot (Dest.field k) (List.mem_cons_self _ _)) (by rw [hh])
        show (applyScanRow ds vs (r.set k v)).getD j .vnull = r.getD j .vnull
        rw [ih vs (r.set k v) hrest]
        simp only [List.getD_eq_getElem?_getD, List.getElem?_set_ne hkj]
      | scratch =>
        show (applyScanRow ds vs r).getD j .vnull = r.getD j .vnull
        exact ih vs r hrest

theorem zeroRecord_getD (fields : List GoField) (j : Nat) (fdj : GoField)
    (hj : fields[j]? = some fdj) :
    (zeroRecord fields).getD j .vnull = zeroValue fdj.typeName := by
  unfold zeroRecord
  rw [List.getD_eq_getElem?_getD, List.getElem?_map, hj]
  rfl

theorem getD_of_getElem? (fields : List GoField) (j : Nat) (fdj : GoField)
    (hj : fields[j]? = some fdj) : fields.getD j fdDefault = fdj := by
  rw [List.getD_eq_getElem?_getD, hj]
  rfl

theorem buildDests_no_field_of_unsettable (fields : List GoField)
    (populate : List Taggroup) (cols : List String) (j : Nat) (fdj : GoField)
    (hj : fields[j]? = some fdj) (hunset : fdj.settable = false) :
    ∀ d ∈ (buildDests fields populate cols).1, d ≠ Dest.field j := by
  intro d hd heq
  subst heq
  have hs := buildDests_field_settable fields populate cols j hd
  rw [getD_of_getElem? fields j fdj hj, hunset] at hs
  exact absurd hs (by simp)

theorem processRow_ok_unsettable (fields : List GoField)
    (populate : List Taggroup) (cols : List String) (row : List Value)
    (j : Nat) (fdj : GoField)
    (hj : fields[j]? = some fdj) (hunset : fdj.settable = false)
    (haggstr : ∀ k ∈ (buildDests fields populate cols).2.2,
      (fields.getD k fdDefault).typeName = "string") :
    ∃ r2, processRow fields populate cols row = .ok r2 ∧
      r2.getD j .vnull = zeroValue fdj.typeName := by
  obtain ⟨r2, hr2⟩ := applyAggs_ok_of_string fields
    (buildDests fields populate cols).2.2
    (applyDates fields (buildDests fields populate cols).2.1
      (applyScanRow (buildDests fields populate cols).1 row (zeroRecord fields)))
    haggstr
  refine ⟨r2, hr2, ?_⟩
  have hgd := getD_of_getElem? fields j fdj hj
  have hjdates : j ∉ (buildDests fields populate cols).2.1 := by
    intro hmem
    have hs := (buildDests_dates_mem fields populate cols j hmem).1
    rw [hgd, hunset] at hs
    exact absurd hs (by simp)
  have hjaggs : j ∉ (buildDests fields populate cols).2.2 := by
    intro hmem
    have hs := buildDests_aggs_mem fields populate cols j hmem
    rw [hgd, hunset] at hs
    exact absurd hs (by simp)
  rw [applyAggs_preserve fields j (buildDests fields populate cols).2.2 _ r2
    hjaggs hr2]
  rw [applyDates_preserve fields j (buildDests fields populate cols).2.1 _
    hjdates]
  rw [applyScanRow_preserve j (buildDests fields populate cols).1 row
    (zeroRecord fields)
    (buildDests_no_field_of_unsettable fields populate cols j fdj hj hunset)]
  exact zeroRecord_getD fields j fdj hj

theorem unmarshalRowLoop_cons_ok (fields : List GoField)
    (populate : List Taggroup) (cols : List String) (ce : Option String)
    (rowsErr : Option String) (row : List Value) (rest : List (List Value))
    (slice : List (List Value)) (seen : Nat) (r2 : List Value)
    (hr2 : processRow fields populate cols row = .ok r2) :
    unmarshalRowLoop fields populate cols ce rowsErr (row :: rest) [] slice
        seen =
      unmarshalRowLoop fields populate cols ce rowsErr rest [] (slice ++ [r2])
        (seen + 1) := by
  have h : unmarshalRowLoop fields populate cols ce rowsErr (row :: rest) []
      slice seen =
      match processRow fields populate cols row with
      | .error e => ⟨none, some e, true, .rolledBack, slice, seen + 1⟩
      | .ok r2 =>
        unmarshalRowLoop fields populate cols ce rowsErr rest []
          (slice ++ [r2]) (seen + 1) := rfl
  rw [h, hr2]

theorem unmarshalRowLoop_all_ok (fields : List GoField)
    (populate : List Taggroup) (cols : List String) (ce : Option String) :
    ∀ (rows : List (List Value)) (slice : List (List Value)) (seen : Nat),
      (∀ row ∈ rows, ∃ r2, processRow fields populate cols row = .ok r2) →
      unmarshalRowLoop fields populate cols ce none rows [] slice seen =
        ⟨none, none, true, .committed ce,
          slice ++ rows.map (processRowD fields populate cols),
          seen + rows.length⟩ := by
  intro rows
  induction rows with
  | nil =>
    intro slice seen _
    simp [unmarshalRowLoop]
  | cons row rest ih =>
    intro slice seen hok
    obtain ⟨r2, hr2⟩ := hok row (List.mem_cons_self _ _)
    have hrest : ∀ r ∈ rest, ∃ x, processRow fields populate cols r = .ok x :=
      fun r hr => hok r (List.mem_cons_of_mem _ hr)
    rw [unmarshalRowLoop_cons_ok fields populate cols ce none row rest slice
      seen r2 hr2]
    rw [ih (slice ++ [r2]) (seen + 1) hrest]
    have hd : processRowD fields populate cols row = r2 := by
      unfold processRowD
      rw [hr2]
    simp only [List.map_cons, hd, List.append_assoc, List.singleton_append,
      List.length_cons]
    congr 1
    omega

/-- C10: when a field binding claims a result column but the struct field
cannot be set (for example, an unexported field), `unmarshal` does not
fail: the column's value is read into a throwaway slot, one record per row
is still appended to the target slice, and the unsettable field is left at
its zero value in every appended record. -/
theorem unmarshal_unsettable_field
    (driver sql : String) (fields : List GoField) (populate : List Taggroup)
    (initSlice : List (List Value)) (qd : QueryData) (ce : Option String)
    (hok : collectTags fields = .ok populate)
    (hcov : ∀ t ∈ populate, qd.cols.contains t.column = true)
    (hscan : qd.scanErrs = []) (hrows : qd.rowsErr = none)
    (haggstr : ∀ k ∈ (buildDests fields populate qd.cols).2.2,
      (fields.getD k fdDefault).typeName = "string")
    (j : Nat) (fdj : GoField) (hj : fields[j]? = some fdj)
    (hunset : fdj.settable = false) :
    (unmarshal driver true true fields initSlice ⟨none, .ok qd, ce⟩ sql).err =
      none ∧
    (unmarshal driver true true fields initSlice ⟨none, .ok qd, ce⟩
      sql).faulted = none ∧
    (unmarshal driver true true fields initSlice ⟨none, .ok qd, ce⟩
      sql).rowsRead = qd.rows.length ∧
    (unmarshal driver true true fields initSlice ⟨none, .ok qd, ce⟩
      sql).slice.length = initSlice.length + qd.rows.length ∧
    ∀ rd ∈ (unmarshal driver true true fields initSlice ⟨none, .ok qd, ce⟩
      sql).slice.drop initSlice.length,
      rd.getD j .vnull = zeroValue fdj.typeName := by
  have hfind : populate.find? (fun t => ! qd.cols.contains t.column) = none := by
    rw [List.find?_eq_none]
    intro t ht
    rw [hcov t ht]
    simp
  have hallok : ∀ row ∈ qd.rows, ∃ r2,
      processRow fields populate qd.cols row = .ok r2 := by
    intro row _
    obtain ⟨r2, hr2, _⟩ := processRow_ok_unsettable fields populate qd.cols row
      j fdj hj hunset haggstr
    exact ⟨r2, hr2⟩
  have hu : unmarshal driver true true fields initSlice ⟨none, .ok qd, ce⟩ sql =
      ⟨none, none, true, .committed ce,
        initSlice ++ qd.rows.map (processRowD fields populate qd.cols),
        0 + qd.rows.length⟩ := by
    unfold unmarshal
    rw [hok]
    dsimp only
    rw [hfind, hscan, hrows]
    exact unmarshalRowLoop_all_ok fields populate qd.cols ce qd.rows initSlice
      0 hallok
  rw [hu]
  refine ⟨rfl, rfl, by simp, by simp, ?_⟩
  intro rd hrd
  simp only [List.drop_left] at hrd
  obtain ⟨row, hrow, hmap⟩ := List.mem_map.mp hrd
  obtain ⟨r2, hr2, hz⟩ := processRow_ok_unsettable fields populate qd.cols row
    j fdj hj hunset haggstr
  have hd : processRowD fields populate qd.cols row = r2 := by
    unfold processRowD
    rw [hr2]
  rw [← hmap, hd]
  exact hz

/-- Witness for C10: a binding on an unsettable (unexported) field; the
call succeeds, the row is appended, and the field stays at its zero
value. -/
theorem unmarshal_unsettable_field_witness :
    (⟨"name", some ("name"), ("string"), false⟩ : GoField).settable = false ∧
    (unmarshal ("postgres") true true
      [⟨"name", some ("name"), ("string"), false⟩] []
      ⟨none, .ok ⟨[("name")], [[.vstring ("bob")]], [], none⟩, none⟩
      ("select name from t")).err = none ∧
    (unmarshal ("postgres") true true
      [⟨"name", some ("name"), ("string"), false⟩] []
      ⟨none, .ok ⟨[("name")], [[.vstring ("bob")]], [], none⟩, none⟩
      ("select name from t")).slice = [[Value.vstring ("")]] :=
  ⟨rfl,
    (unmarshal_unsettable_field ("postgres") ("select name from t")
      [⟨"name", some ("name"), ("string"), false⟩] [⟨"name", ("name"), []⟩] []
      ⟨[("name")], [[.vstring ("bob")]], [], none⟩ none (by rfl) (by decide)
      (by rfl) (by rfl) (by decide) 0
      ⟨"name", some ("name"), ("string"), false⟩ (by rfl) (by rfl)).1,
    by rfl⟩

end Dbi
